import Mathlib

/-!
Verification development for the robot_eval_logger telemetry pipeline.
The Python sources are shallowly embedded: dictionaries become association
lists, `collections.deque(maxlen=n)` becomes a list with FIFO eviction,
floats become rationals, wall-clock time becomes an explicit rational
parameter, the filesystem becomes an association list from paths to file
contents, and Python exceptions become `Except` errors.
-/

namespace RobotEvalLogger

/-! ## Association lists (embedding of Python dicts, insertion-ordered) -/

/-- Look up a key in an insertion-ordered association list (Python dict read). -/
def alistGet {β : Type} (m : List (String × β)) (k : String) : Option β :=
  (m.find? (fun p => p.1 = k)).map (·.2)

/-- Set a key in an insertion-ordered association list (Python dict write):
an existing key is overwritten in place, a new key is appended at the end. -/
def alistSet {β : Type} : List (String × β) → String → β → List (String × β)
  | [], k, v => [(k, v)]
  | (k0, v0) :: rest, k, v =>
      if k0 = k then (k0, v) :: rest else (k0, v0) :: alistSet rest k v

theorem alistGet_nil {β : Type} (k : String) : alistGet ([] : List (String × β)) k = none := rfl

theorem alistGet_set_self {β : Type} (m : List (String × β)) (k : String) (v : β) :
    alistGet (alistSet m k v) k = some v := by
  induction m with
  | nil => simp [alistGet, alistSet]
  | cons p rest ih =>
      obtain ⟨k0, v0⟩ := p
      by_cases h : k0 = k
      · subst h
        simp [alistGet, alistSet, List.find?]
      · simp only [alistSet, if_neg h]
        simpa [alistGet, List.find?, h] using ih

theorem alistGet_set_ne {β : Type} (m : List (String × β)) (k k' : String) (v : β)
    (h : k ≠ k') : alistGet (alistSet m k v) k' = alistGet m k' := by
  induction m with
  | nil => simp [alistGet, alistSet, List.find?, h]
  | cons p rest ih =>
      obtain ⟨k0, v0⟩ := p
      by_cases h0 : k0 = k
      · subst h0
        simp [alistGet, alistSet, List.find?, h]
      · simp only [alistSet, if_neg h0]
        by_cases h1 : k0 = k'
        · subst h1
          simp [alistGet, List.find?]
        · simpa [alistGet, List.find?, h1] using ih

/-! ## Numeric helpers: Python / numpy arithmetic on the rational model -/

/-- The last `n` elements of a list (`lst[-n:]` in Python, for `n > 0`). -/
def lastN {α : Type} (n : ℕ) (l : List α) : List α :=
  l.drop (l.length - n)

/-- Arithmetic mean of a list of rationals (`np.mean`); 0 on the empty list. -/
def mean (l : List ℚ) : ℚ :=
  l.sum / (l.length : ℚ)

/-- Round a rational to the nearest integer, ties to even
(the rounding used by Python's `round` / `np.round`). -/
def roundHalfEven (q : ℚ) : ℤ :=
  let f := q - (⌊q⌋ : ℚ)
  if f < 1/2 then ⌊q⌋
  else if 1/2 < f then ⌊q⌋ + 1
  else if ⌊q⌋ % 2 = 0 then ⌊q⌋ else ⌊q⌋ + 1

/-- `round(x, 4)`: round to 4 decimal places. -/
def round4 (q : ℚ) : ℚ :=
  (roundHalfEven (q * 10000) : ℚ) / 10000

/-! ## Success tracker: `EvalLogger.log_success_rates` (eval_logger.py) -/

/-- The statistics map returned by one `log_success_rates` call
(the four `logging_prefix/...` keys). -/
structure SuccessStats where
  episodeSuccess : ℚ
  cumulativeNumSuccess : ℚ
  recentSuccessRate : ℚ
  overallSuccessRate : ℚ
  deriving Repr, DecidableEq

/-- The `past_success_rates` dict: label to list of 0.0/1.0 flags. -/
def SuccessState : Type := List (String × List ℚ)

/-- `float(episode_success)`. -/
def successVal (b : Bool) : ℚ := if b then 1 else 0

/-- Embedding of `EvalLogger.log_success_rates`: append `float(success)` to the
label's series, then compute the cumulative count and the recent/overall
success rates rounded to 4 decimal places. The `step` argument is accepted but
unused, exactly as in the source. -/
def logSuccessRates (st : SuccessState) (step : ℕ) (label : String) (b : Bool) :
    SuccessState × SuccessStats :=
  let series := (alistGet st label).getD []
  let series2 := series ++ [successVal b]
  let st2 := alistSet st label series2
  (st2,
    { episodeSuccess := successVal b
      cumulativeNumSuccess := series2.sum
      recentSuccessRate := round4 (mean (lastN 20 series2))
      overallSuccessRate := round4 (mean series2) })

/-- Run a sequence of `(label, success)` episode events through
`log_success_rates`, starting from the empty `past_success_rates` dict. -/
def runSuccessEvents (events : List (String × Bool)) : SuccessState :=
  events.foldl (fun st e => (logSuccessRates st 0 e.1 e.2).1) []

/-- The series stored for a label after a fold is the prior series extended by
the values of the events logged under that label. -/
theorem alistGet_fold_label (events : List (String × Bool)) (st : SuccessState)
    (label : String) :
    (alistGet (events.foldl (fun st e => (logSuccessRates st 0 e.1 e.2).1) st) label).getD []
      = (alistGet st label).getD []
        ++ (events.filter (fun e => e.1 = label)).map (fun e => successVal e.2) := by
  induction events generalizing st with
  | nil => simp
  | cons e rest ih =>
      obtain ⟨l, b⟩ := e
      by_cases h : l = label
      · subst h
        simp only [List.foldl_cons, List.filter_cons, decide_eq_true_eq, if_pos rfl]
        rw [ih]
        simp [logSuccessRates, alistGet_set_self]
      · simp only [List.foldl_cons, List.filter_cons]
        rw [ih]
        simp [logSuccessRates, alistGet_set_ne _ _ _ _ h, h]

theorem runSuccessEvents_label (events : List (String × Bool)) (label : String) :
    (alistGet (runSuccessEvents events) label).getD []
      = (events.filter (fun e => e.1 = label)).map (fun e => successVal e.2) := by
  simpa [runSuccessEvents] using alistGet_fold_label events [] label

/-- Sum of the 0/1 values of a flag list equals the number of true flags. -/
theorem sum_successVal (l : List Bool) :
    ((l.map successVal).sum) = (l.count true : ℚ) := by
  induction l with
  | nil => simp
  | cons b rest ih =>
      cases b <;> simp [successVal, ih, List.count_cons] <;> ring

/-- C1: after any episode history, the next `log_success_rates` call under a
label returns `cumulative_num_success` equal to the exact count of true flags
logged under that label, `recent_success_rate` equal to the mean of the last
min(20, N) flags rounded to 4 decimals, and `overall_success_rate` equal to
the mean of all N flags rounded to 4 decimals; in particular, successes
[1,0,1,1,0] yield overall 0.6 and cumulative 3. -/
theorem log_success_rates_correct (events : List (String × Bool)) (label : String)
    (step : ℕ) (b : Bool) :
    (let flags := ((events.filter (fun e => e.1 = label)).map (·.2)) ++ [b]
     let vals := flags.map successVal
     let stats := (logSuccessRates (runSuccessEvents events) step label b).2
     stats.cumulativeNumSuccess = (flags.count true : ℚ) ∧
     stats.recentSuccessRate = round4 (mean (lastN 20 vals)) ∧
     (lastN 20 vals).length = min 20 flags.length ∧
     stats.overallSuccessRate = round4 (mean vals)) ∧
    (let final := (logSuccessRates (runSuccessEvents
        [("pick", true), ("pick", false), ("pick", true), ("pick", true)]) 4 "pick"
        false).2
     final.overallSuccessRate = 3/5 ∧ final.cumulativeNumSuccess = 3) := by
  constructor
  · intro flags vals stats
    have hser : (alistGet (runSuccessEvents events) label).getD []
        = (events.filter (fun e => e.1 = label)).map (fun e => successVal e.2) :=
      runSuccessEvents_label events label
    have hvals : vals = ((alistGet (runSuccessEvents events) label).getD []) ++ [successVal b] := by
      simp [vals, flags, hser, List.map_append, List.map_map, Function.comp]
    refine ⟨?_, ?_, ?_, ?_⟩
    · show (((alistGet (runSuccessEvents events) label).getD [] ++ [successVal b]).sum) = _
      rw [← hvals]
      have : vals = flags.map successVal := rfl
      rw [this, sum_successVal]
    · show round4 (mean (lastN 20 (((alistGet (runSuccessEvents events) label).getD [])
        ++ [successVal b]))) = _
      rw [← hvals]
    · simp only [lastN, List.length_drop, List.length_map, vals]
      omega
    · show round4 (mean (((alistGet (runSuccessEvents events) label).getD [])
        ++ [successVal b])) = _
      rw [← hvals]
  · have hrun : runSuccessEvents
        [("pick", true), ("pick", false), ("pick", true), ("pick", true)]
        = [("pick", [1, 0, 1, 1])] := by
      norm_num [runSuccessEvents, logSuccessRates, alistGet, alistSet, List.find?, successVal]
    refine ⟨?_, ?_⟩ <;>
      norm_num [hrun, logSuccessRates, alistGet, alistSet, List.find?, successVal,
        round4, roundHalfEven, mean]

/-! ## Frame visualizer: `FrameVisualizer` (visualize/visualize_frames.py)

Image pixels, resizing, concatenation, matplotlib rendering and video
encoding are external collaborators; a frame is left abstract as a natural
number and an artifact records the data the external renderers receive. -/

/-- An abstract image frame. -/
def Frame : Type := ℕ

instance : DecidableEq Frame := fun a b => Nat.decEq a b
instance : OfNat Frame n := ⟨n⟩
instance : Repr Frame := inferInstanceAs (Repr ℕ)

/-- A visualization artifact handed to wandb: the episode frame strip, the
episode video, or the windowed initial-and-final composite (the data handed
to `_plot_frames_with_success`: the non-null frame pairs, the success-rate
series used for the line plot, and the step). -/
inductive Artifact : Type where
  | framesImage (strip : List Frame)
  | video (allFrames : List Frame)
  | initialAndFinal (pairs : List (Frame × Frame)) (successes : List ℚ) (step : ℕ)
  deriving Repr, DecidableEq

/-- `FrameVisualizer` state and configuration. `past_frames` maps a label to
its window of optional (first, last) frame pairs. -/
structure VizState where
  videoFps : ℕ
  episodeVizFrameInterval : ℕ
  periodicEnabled : Bool
  vizEveryN : ℕ
  pastFrames : List (String × List (Option (Frame × Frame)))
  deriving Repr, DecidableEq

/-- Append to a `deque(maxlen=n)`: the oldest entries are evicted from the
front so that at most `n` remain. -/
def dequeAppend {α : Type} (n : ℕ) (l : List α) (a : α) : List α :=
  let l2 := l ++ [a]
  l2.drop (l2.length - n)

/-- Python `lst[::k]` for a positive stride: the elements at indices 0, k, 2k, ... -/
def everyNth {α : Type} (l : List α) (k : ℕ) : List α :=
  (l.enum.filter (fun p => p.1 % k = 0)).map Prod.snd

/-- `(frames[0], frames[-1]) if len(frames) > 0 else None`. -/
def framePair (fs : List Frame) : Option (Frame × Frame) :=
  match fs.head?, fs.getLast? with
  | some a, some b => some (a, b)
  | _, _ => none

/-- Python `lst[-n:]` as used on the success-rate series: for `n = 0` the
slice `[-0:]` is the whole list. -/
def pySliceLast (n : ℕ) (l : List ℚ) : List ℚ :=
  if n = 0 then l else lastN n l

/-- Embedding of `FrameVisualizer._plot_frames_with_success`: the composite
rendered from the non-null pairs, the last `len(frames)` success-rate values
and the step. -/
def plotFramesWithSuccess (pairs : List (Frame × Frame)) (successRates : List ℚ)
    (step : ℕ) : Artifact :=
  Artifact.initialAndFinal pairs (pySliceLast pairs.length successRates) step

/-- The window stored for a label (empty when the label is unknown). -/
def VizState.window (st : VizState) (label : String) : List (Option (Frame × Frame)) :=
  (alistGet st.pastFrames label).getD []

/-- Embedding of `FrameVisualizer.log_frames`. A `None` frames argument
returns immediately; otherwise the (first, last) pair — or `None` for an
empty frame list — is appended to the label's bounded window, the episode
summary artifacts are built when the frame list is non-empty, and when the
periodic trigger `(step + 1) % success_viz_every_n == 0` fires with periodic
visualization enabled, the source asserts that the window is exactly full
(an `Except.error` here), renders the composite from the non-null pairs and
clears the window. -/
def logFrames (st : VizState) (step : ℕ) (label : String)
    (frames : Option (List Frame)) (successRates : List ℚ) :
    Except String (VizState × List (String × Artifact)) :=
  match frames with
  | none => Except.ok (st, [])
  | some fs =>
      let entry := framePair fs
      let window2 := dequeAppend st.vizEveryN (st.window label) entry
      let st2 := { st with pastFrames := alistSet st.pastFrames label window2 }
      let summary : List (String × Artifact) :=
        if fs.length > 0 then
          [(label ++ "/frames",
            Artifact.framesImage (everyNth fs st.episodeVizFrameInterval
              ++ [fs.getLast?.getD 0])),
           (label ++ "/video", Artifact.video fs)]
        else []
      if (step + 1) % st.vizEveryN = 0 ∧ st.periodicEnabled = true then
        if window2.length = st.vizEveryN then
          let pairs := window2.filterMap id
          Except.ok
            ({ st2 with pastFrames := alistSet st2.pastFrames label [] },
             summary ++ [(label ++ "/initial_and_final_frames",
               plotFramesWithSuccess pairs successRates step)])
        else
          Except.error "assert len(past_frames) == success_viz_every_n failed"
      else
        Except.ok (st2, summary)

/-- Embedding of `FrameVisualizer.log_remaining_frames`: for every label, in
insertion order, whose window holds at least one non-null pair, emit the
composite built from the non-null pairs, padding the success series with
zeros when the supplied mapping has no (or an empty) entry for the label.
The source only reads `past_frames`; the state is returned unchanged. -/
def logRemainingFrames (st : VizState) (finalStep : ℕ)
    (successRates : List (String × List ℚ)) :
    VizState × List (String × Artifact) :=
  (st,
    st.pastFrames.foldl
      (fun acc p =>
        let framesData := p.2
        if framesData.length = 0 then acc
        else
          let pairs := framesData.filterMap id
          if pairs.length = 0 then acc
          else
            let sr := match alistGet successRates p.1 with
              | some l => if l.length = 0 then List.replicate pairs.length 0 else l
              | none => List.replicate pairs.length 0
            acc ++ [(p.1 ++ "/initial_and_final_frames",
              plotFramesWithSuccess pairs sr finalStep)])
      [])

/-- Cancellation of a common first factor of string append. -/
theorem string_append_right_inj (a : String) {b c : String} (h : a ++ b = a ++ c) :
    b = c := by
  have hd := congrArg String.data h
  simp only [String.data_append] at hd
  exact String.ext (List.append_cancel_left hd)

/-- Cancellation of a common second factor of string append. -/
theorem string_append_left_inj (a : String) {b c : String} (h : b ++ a = c ++ a) :
    b = c := by
  have hd := congrArg String.data h
  simp only [String.data_append] at hd
  exact String.ext (List.append_cancel_right hd)

/-- The artifact keys of a successful `log_frames` result ([] on error). -/
def okArtifactKeys (e : Except String (VizState × List (String × Artifact))) :
    List String :=
  match e with
  | Except.ok (_, arts) => arts.map Prod.fst
  | Except.error _ => []

/-- The window a label holds in the state of a successful `log_frames`
result (`none` on error). -/
def okWindow (e : Except String (VizState × List (String × Artifact)))
    (label : String) : Option (List (Option (Frame × Frame))) :=
  match e with
  | Except.ok (st, _) => some (st.window label)
  | Except.error _ => none

/-- C10: calling `log_frames` with `frames = None` returns the empty map and
leaves the visualizer's state entirely unchanged — no append, no artifact,
no window cleared — even when the periodic trigger condition holds. -/
theorem logFrames_none_noop (st : VizState) (step : ℕ) (label : String)
    (sr : List ℚ) : logFrames st step label none sr = Except.ok (st, []) := rfl

/-- C2 (amended to calls that supply frames): for a call with
`frames ≠ None`, the windowed initial-and-final artifact is returned exactly
when the periodic trigger fires with periodic visualization enabled and the
label's window (after this call's append) is exactly full, and in that case
the window is cleared; a non-triggering call returns no windowed artifact and
keeps the appended window; a triggering call with a non-full window errors
(and thus also returns no artifact). -/
theorem logFrames_windowed_iff (st : VizState) (step : ℕ) (label : String)
    (fs : List Frame) (sr : List ℚ) :
    (((step + 1) % st.vizEveryN = 0 ∧ st.periodicEnabled = true) →
      (dequeAppend st.vizEveryN (st.window label) (framePair fs)).length = st.vizEveryN →
      (logFrames st step label (some fs) sr).isOk = true ∧
        (label ++ "/initial_and_final_frames")
          ∈ okArtifactKeys (logFrames st step label (some fs) sr) ∧
        okWindow (logFrames st step label (some fs) sr) label = some []) ∧
    (¬((step + 1) % st.vizEveryN = 0 ∧ st.periodicEnabled = true) →
      (logFrames st step label (some fs) sr).isOk = true ∧
        ¬((label ++ "/initial_and_final_frames")
          ∈ okArtifactKeys (logFrames st step label (some fs) sr)) ∧
        okWindow (logFrames st step label (some fs) sr) label
          = some (dequeAppend st.vizEveryN (st.window label) (framePair fs))) ∧
    (((step + 1) % st.vizEveryN = 0 ∧ st.periodicEnabled = true) →
      ¬((dequeAppend st.vizEveryN (st.window label) (framePair fs)).length = st.vizEveryN) →
      logFrames st step label (some fs) sr
        = Except.error "assert len(past_frames) == success_viz_every_n failed") := by
  refine ⟨?_, ?_, ?_⟩
  · intro ht hf
    simp only [logFrames, if_pos ht, if_pos hf]
    refine ⟨rfl, ?_, ?_⟩
    · simp [okArtifactKeys]
    · simp [okWindow, VizState.window, alistGet_set_self]
  · intro ht
    simp only [logFrames, if_neg ht]
    refine ⟨rfl, ?_, ?_⟩
    · by_cases hl : (fs.length > 0)
      · simp only [okArtifactKeys, if_pos hl, List.map_cons, List.map_nil]
        intro hmem
        simp only [List.mem_cons, List.not_mem_nil, or_false] at hmem
        rcases hmem with h1 | h1
        · exact absurd (string_append_right_inj label h1) (by decide)
        · exact absurd (string_append_right_inj label h1) (by decide)
      · simp [okArtifactKeys, if_neg hl]
    · simp [okWindow, VizState.window, alistGet_set_self]
  · intro ht hf
    simp only [logFrames, if_pos ht, if_neg hf]

/-- Witness for C2: a concrete triggering call on a full window returns the
windowed artifact and clears the window. -/
theorem logFrames_windowed_iff_witness :
    (let st : VizState := ⟨10, 10, true, 2, [("a", [some (1, 2)])]⟩
     ((1 + 1) % st.vizEveryN = 0 ∧ st.periodicEnabled = true) ∧
     (dequeAppend st.vizEveryN (st.window "a") (framePair [5])).length = st.vizEveryN ∧
     ((logFrames st 1 "a" (some [5]) [1, 1]).isOk = true ∧
       ("a" ++ "/initial_and_final_frames")
         ∈ okArtifactKeys (logFrames st 1 "a" (some [5]) [1, 1]) ∧
       okWindow (logFrames st 1 "a" (some [5]) [1, 1]) "a" = some [])) :=
  ⟨by decide, by decide,
    (logFrames_windowed_iff ⟨10, 10, true, 2, [("a", [some (1, 2)])]⟩ 1 "a" [5]
      [1, 1]).1 (by decide) (by decide)⟩

/-- The state of the C2 counterexample after five calls: label "pick" was
logged with frames at steps 0, 1, 3, 4 and with `frames = None` at step 2,
with `success_viz_every_n = 3`. -/
def c2State : VizState :=
  ⟨10, 10, true, 3, [("pick", [some (11, 11), some (13, 13), some (14, 14)])]⟩

/-- C2 counterexample to the claim as stated: at step 5 the trigger fires,
periodic visualization is enabled, and the window is exactly full, yet the
call (whose `frames` argument is `None`) returns no windowed artifact and
does not clear the window. The state is reachable: steps 0..4 with frames
`[10]`, `[11]`, `None`, `[13]`, `[14]` produce it from the initial state. -/
theorem logFrames_windowed_iff_counterexample :
    (((((logFrames ⟨10, 10, true, 3, []⟩ 0 "pick" (some [10]) [1]).bind
        (fun r => logFrames r.1 1 "pick" (some [11]) [1, 1])).bind
        (fun r => logFrames r.1 2 "pick" none [1, 1, 0])).bind
        (fun r => logFrames r.1 3 "pick" (some [13]) [1, 1, 0, 1])).bind
        (fun r => logFrames r.1 4 "pick" (some [14]) [1, 1, 0, 1, 1]))
      = Except.ok (c2State,
          [("pick/frames", Artifact.framesImage [14, 14]),
           ("pick/video", Artifact.video [14])]) ∧
    ((5 + 1) % c2State.vizEveryN = 0 ∧ c2State.periodicEnabled = true) ∧
    (c2State.window "pick").length = c2State.vizEveryN ∧
    logFrames c2State 5 "pick" none [1, 1, 0, 1, 1, 0] = Except.ok (c2State, []) ∧
    c2State.window "pick" ≠ [] := by
  refine ⟨rfl, by decide, by decide, rfl, by decide⟩

/-- C8 (amended): a call that supplies frames fails loudly (raises) exactly
when the periodic trigger fires with periodic visualization enabled and the
label's window (after this call's append) does not hold exactly W entries,
null entries included; a window that holds W entries of which some are null
passes the assertion and silently renders the partial plot. -/
theorem logFrames_assert_iff (st : VizState) (step : ℕ) (label : String)
    (fs : List Frame) (sr : List ℚ) :
    (∃ msg, logFrames st step label (some fs) sr = Except.error msg)
      ↔ ((step + 1) % st.vizEveryN = 0 ∧ st.periodicEnabled = true ∧
         (dequeAppend st.vizEveryN (st.window label) (framePair fs)).length ≠ st.vizEveryN) := by
  constructor
  · intro hmsg
    rcases hmsg with ⟨msg, hmsg⟩
    by_cases ht : ((step + 1) % st.vizEveryN = 0 ∧ st.periodicEnabled = true)
    · by_cases hf : (dequeAppend st.vizEveryN (st.window label) (framePair fs)).length
          = st.vizEveryN
      · simp only [logFrames, if_pos ht, if_pos hf] at hmsg
        exact Except.noConfusion hmsg
      · exact ⟨ht.1, ht.2, hf⟩
    · simp only [logFrames, if_neg ht] at hmsg
      exact Except.noConfusion hmsg
  · intro ⟨h1, h2, h3⟩
    exact ⟨"assert len(past_frames) == success_viz_every_n failed",
      by simp only [logFrames, if_pos (And.intro h1 h2), if_neg h3]⟩

/-- The state of the C8 counterexample: label "pick" logged an empty frame
list at step 0, leaving a null entry in its window, with
`success_viz_every_n = 2`. -/
def c8State : VizState := ⟨10, 10, true, 2, [("pick", [none])]⟩

/-- C8 counterexample to the claim as stated: at step 1 the trigger fires
with periodic visualization enabled and the window holds fewer than W
non-null entries (one of its two entries is null), yet the call does not
fail — it succeeds and returns a windowed artifact rendered from the single
non-null pair. -/
theorem logFrames_assert_counterexample :
    logFrames ⟨10, 10, true, 2, []⟩ 0 "pick" (some []) [0] = Except.ok (c8State, []) ∧
    ((1 + 1) % c8State.vizEveryN = 0 ∧ c8State.periodicEnabled = true) ∧
    ((dequeAppend c8State.vizEveryN (c8State.window "pick")
        (framePair [21])).filterMap id).length < c8State.vizEveryN ∧
    (logFrames c8State 1 "pick" (some [21]) [0, 1]).isOk = true ∧
    "pick/initial_and_final_frames"
      ∈ okArtifactKeys (logFrames c8State 1 "pick" (some [21]) [0, 1]) := by
  refine ⟨rfl, by decide, by decide, rfl, by decide⟩

/-- Witness for C8: a concrete triggering call whose window holds a single
entry while W = 2 fails with the assertion error. -/
theorem logFrames_assert_iff_witness :
    ((1 + 1) % c8State.vizEveryN = 0 ∧ c8State.periodicEnabled = true ∧
      (dequeAppend c8State.vizEveryN (c8State.window "none") (framePair [7])).length
        ≠ c8State.vizEveryN) ∧
    (∃ msg, logFrames c8State 1 "none" (some [7]) [0] = Except.error msg) :=
  ⟨by decide,
   (logFrames_assert_iff c8State 1 "none" [7] [0]).2 (by decide)⟩

/-- The optional flush artifact `log_remaining_frames` emits for one
`past_frames` entry. -/
def remainingEntry (srm : List (String × List ℚ)) (finalStep : ℕ)
    (p : String × List (Option (Frame × Frame))) : Option (String × Artifact) :=
  if p.2.length = 0 then none
  else if (p.2.filterMap id).length = 0 then none
  else
    some (p.1 ++ "/initial_and_final_frames",
      plotFramesWithSuccess (p.2.filterMap id)
        (match alistGet srm p.1 with
         | some l => if l.length = 0 then List.replicate (p.2.filterMap id).length 0 else l
         | none => List.replicate (p.2.filterMap id).length 0)
        finalStep)

theorem remainingEntry_isSome_iff (srm : List (String × List ℚ)) (finalStep : ℕ)
    (p : String × List (Option (Frame × Frame))) :
    (remainingEntry srm finalStep p).isSome = true ↔ (p.2.filterMap id).length ≠ 0 := by
  by_cases h2 : (p.2.filterMap id).length = 0
  · by_cases h1 : p.2.length = 0 <;> simp [remainingEntry, h1, h2]
  · have h1 : ¬(p.2.length = 0) := by
      intro h0
      rw [List.length_eq_zero.mp h0] at h2
      simp at h2
    simp [remainingEntry, h1, h2]

theorem remainingEntry_key (srm : List (String × List ℚ)) (finalStep : ℕ)
    (p : String × List (Option (Frame × Frame))) (e : String × Artifact)
    (h : remainingEntry srm finalStep p = some e) :
    e.1 = p.1 ++ "/initial_and_final_frames" := by
  by_cases h1 : p.2.length = 0
  · simp [remainingEntry, h1] at h
  · by_cases h2 : (p.2.filterMap id).length = 0
    · simp [remainingEntry, h1, h2] at h
    · simp only [remainingEntry, if_neg h1, if_neg h2, Option.some_inj] at h
      rw [← h]

/-- The flush loop of `log_remaining_frames` is the filterMap of
`remainingEntry` over `past_frames`. -/
theorem logRemainingFrames_foldl (srm : List (String × List ℚ)) (finalStep : ℕ)
    (l : List (String × List (Option (Frame × Frame)))) (acc : List (String × Artifact)) :
    (l.foldl
      (fun acc p =>
        let framesData := p.2
        if framesData.length = 0 then acc
        else
          let pairs := framesData.filterMap id
          if pairs.length = 0 then acc
          else
            let sr := match alistGet srm p.1 with
              | some l => if l.length = 0 then List.replicate pairs.length 0 else l
              | none => List.replicate pairs.length 0
            acc ++ [(p.1 ++ "/initial_and_final_frames",
              plotFramesWithSuccess pairs sr finalStep)])
      acc)
      = acc ++ l.filterMap (remainingEntry srm finalStep) := by
  induction l generalizing acc with
  | nil => simp
  | cons p rest ih =>
      by_cases h1 : p.2.length = 0
      · simp only [List.foldl_cons, if_pos h1]
        rw [ih]
        simp [remainingEntry, h1]
      · by_cases h2 : (p.2.filterMap id).length = 0
        · simp only [List.foldl_cons, if_neg h1, if_pos h2]
          rw [ih]
          simp [remainingEntry, h1, h2]
        · simp only [List.foldl_cons, if_neg h1, if_neg h2]
          rw [ih]
          simp [remainingEntry, h1, h2]

/-- With distinct keys, a member of an association list is what lookup finds. -/
theorem alistGet_mem_nodup {β : Type} (l : List (String × β))
    (hnd : (l.map Prod.fst).Nodup) (p : String × β) (hp : p ∈ l) :
    alistGet l p.1 = some p.2 := by
  induction l with
  | nil => simp at hp
  | cons q rest ih =>
      rcases List.mem_cons.mp hp with rfl | hp2
      · simp [alistGet, List.find?]
      · have hqp : q.1 ≠ p.1 := by
          intro hq
          have : p.1 ∈ rest.map Prod.fst := List.mem_map_of_mem Prod.fst hp2
          rw [← hq] at this
          exact (List.nodup_cons.mp hnd).1 this
        have ih2 := ih (List.nodup_cons.mp hnd).2 hp2
        simpa [alistGet, List.find?, hqp] using ih2

/-- A successful association-list lookup is a member. -/
theorem alistGet_eq_some_mem {β : Type} (l : List (String × β)) (k : String) (v : β)
    (h : alistGet l k = some v) : (k, v) ∈ l := by
  induction l with
  | nil => simp [alistGet] at h
  | cons q rest ih =>
      obtain ⟨q1, q2⟩ := q
      by_cases hq : q1 = k
      · subst hq
        have hv : q2 = v := by simpa [alistGet, List.find?] using h
        subst hv
        exact List.mem_cons_self _ _
      · have h2 : alistGet rest k = some v := by simpa [alistGet, List.find?, hq] using h
        exact List.mem_cons_of_mem _ (ih h2)

/-- The artifact keys the flush emits are distinct when the labels are. -/
theorem remaining_keys_nodup (srm : List (String × List ℚ)) (finalStep : ℕ)
    (l : List (String × List (Option (Frame × Frame))))
    (hnd : (l.map Prod.fst).Nodup) :
    ((l.filterMap (remainingEntry srm finalStep)).map Prod.fst).Nodup := by
  induction l with
  | nil => simp
  | cons p rest ih =>
      have hnd2 := (List.nodup_cons.mp hnd).2
      have hp1 := (List.nodup_cons.mp hnd).1
      cases he : remainingEntry srm finalStep p with
      | none => simpa [List.filterMap_cons, he] using ih hnd2
      | some e =>
          simp only [List.filterMap_cons, he, List.map_cons, List.nodup_cons]
          refine ⟨?_, ih hnd2⟩
          intro hmem
          rcases List.mem_map.mp hmem with ⟨e2, he2, hkey⟩
          rcases List.mem_filterMap.mp he2 with ⟨q, hq, hqe⟩
          have h1 := remainingEntry_key srm finalStep p e he
          have h2 := remainingEntry_key srm finalStep q e2 hqe
          have : q.1 = p.1 := string_append_left_inj _ (by rw [← h1, ← h2, hkey])
          apply hp1
          rw [← this]
          exact List.mem_map_of_mem Prod.fst hq

/-- C3 (amended): `log_remaining_frames` leaves the visualizer state — in
particular every window — unchanged (the source never clears `past_frames`),
and returns exactly one artifact per label whose window holds at least one
non-null frame pair (the success series padded with zeros when the supplied
mapping lacks the label or maps it to an empty list); a label whose window is
non-empty but holds only null entries gets no artifact. -/
theorem logRemainingFrames_spec (st : VizState) (finalStep : ℕ)
    (srm : List (String × List ℚ))
    (hnd : (st.pastFrames.map Prod.fst).Nodup) :
    (logRemainingFrames st finalStep srm).1 = st ∧
    (logRemainingFrames st finalStep srm).2
      = st.pastFrames.filterMap (remainingEntry srm finalStep) ∧
    (∀ label w, alistGet st.pastFrames label = some w →
      (((label ++ "/initial_and_final_frames")
          ∈ ((logRemainingFrames st finalStep srm).2.map Prod.fst))
        ↔ (w.filterMap id).length ≠ 0)) ∧
    (∀ label w, alistGet st.pastFrames label = some w → (w.filterMap id).length ≠ 0 →
      ((logRemainingFrames st finalStep srm).2.map Prod.fst).count
        (label ++ "/initial_and_final_frames") = 1) := by
  have harts : (logRemainingFrames st finalStep srm).2
      = st.pastFrames.filterMap (remainingEntry srm finalStep) := by
    show (st.pastFrames.foldl _ []) = _
    rw [logRemainingFrames_foldl]
    simp
  have hmem : ∀ label w, alistGet st.pastFrames label = some w →
      (((label ++ "/initial_and_final_frames")
          ∈ ((logRemainingFrames st finalStep srm).2.map Prod.fst))
        ↔ (w.filterMap id).length ≠ 0) := by
    intro label w hw
    rw [harts]
    constructor
    · intro hk
      rcases List.mem_map.mp hk with ⟨e, he, hkey⟩
      rcases List.mem_filterMap.mp he with ⟨p, hp, hpe⟩
      have h1 := remainingEntry_key srm finalStep p e hpe
      have hlab : p.1 = label := string_append_left_inj _ (h1.symm.trans hkey)
      have hpw : p.2 = w := by
        have hg := alistGet_mem_nodup st.pastFrames hnd p hp
        rw [hlab, hw] at hg
        exact (Option.some_inj.mp hg).symm
      have hs : (remainingEntry srm finalStep p).isSome = true := by
        rw [hpe]; rfl
      rw [← hpw]
      exact (remainingEntry_isSome_iff srm finalStep p).mp hs
    · intro hnn
      have hpl : (label, w) ∈ st.pastFrames := alistGet_eq_some_mem _ _ _ hw
      have hs : (remainingEntry srm finalStep (label, w)).isSome = true :=
        (remainingEntry_isSome_iff srm finalStep (label, w)).mpr hnn
      rcases Option.isSome_iff_exists.mp hs with ⟨e, he⟩
      have hkey := remainingEntry_key srm finalStep (label, w) e he
      refine List.mem_map.mpr ⟨e, List.mem_filterMap.mpr ⟨(label, w), hpl, he⟩, hkey⟩
  refine ⟨rfl, harts, hmem, ?_⟩
  intro label w hw hnn
  have hk := (hmem label w hw).mpr hnn
  have hnodup : (((logRemainingFrames st finalStep srm).2).map Prod.fst).Nodup := by
    rw [harts]
    exact remaining_keys_nodup srm finalStep st.pastFrames hnd
  exact List.count_eq_one_of_mem hnodup hk

/-- Witness for C3: on a concrete state with two labels, one window holding
a real pair and one holding only a null entry, the flush leaves the state
unchanged, emits exactly one artifact for the first label and none for the
second. -/
theorem logRemainingFrames_spec_witness :
    (let st : VizState := ⟨10, 10, true, 3, [("a", [some (1, 2)]), ("b", [none])]⟩
     (st.pastFrames.map Prod.fst).Nodup ∧
     (logRemainingFrames st 5 [("a", [1])]).1 = st ∧
     ((("a" ++ "/initial_and_final_frames")
        ∈ ((logRemainingFrames st 5 [("a", [1])]).2.map Prod.fst))
       ↔ (([some (1, 2)] : List (Option (Frame × Frame))).filterMap id).length ≠ 0) ∧
     ((logRemainingFrames st 5 [("a", [1])]).2.map Prod.fst).count
        ("a" ++ "/initial_and_final_frames") = 1) :=
  ⟨by decide,
   (logRemainingFrames_spec ⟨10, 10, true, 3, [("a", [some (1, 2)]), ("b", [none])]⟩
      5 [("a", [1])] (by decide)).1,
   (logRemainingFrames_spec ⟨10, 10, true, 3, [("a", [some (1, 2)]), ("b", [none])]⟩
      5 [("a", [1])] (by decide)).2.2.1 "a" [some (1, 2)] (by decide),
   (logRemainingFrames_spec ⟨10, 10, true, 3, [("a", [some (1, 2)]), ("b", [none])]⟩
      5 [("a", [1])] (by decide)).2.2.2 "a" [some (1, 2)] (by decide) (by decide)⟩

/-- The state of the C3 counterexample: label "a" has a window with one real
pair, label "b" a non-empty window holding only a null entry. -/
def c3State : VizState := ⟨10, 10, true, 3, [("a", [some (1, 2)]), ("b", [none])]⟩

/-- C3 counterexample to the claim as stated: after `log_remaining_frames`
the windows are not empty (the source never clears them), and label "b",
whose window is non-empty, receives no artifact. -/
theorem logRemainingFrames_counterexample :
    c3State.window "a" ≠ [] ∧
    c3State.window "b" ≠ [] ∧
    (logRemainingFrames c3State 5 [("a", [1])]).1 = c3State ∧
    (logRemainingFrames c3State 5 [("a", [1])]).1.window "a" ≠ [] ∧
    ((logRemainingFrames c3State 5 [("a", [1])]).2.map Prod.fst)
      = ["a/initial_and_final_frames"] := by
  refine ⟨by decide, by decide, rfl, by decide, by decide⟩

/-! ## Periodic reporter: `EvalLogger.log_time_related_stats` (eval_logger.py)

Wall-clock time is an explicit rational parameter (minutes are derived from
seconds exactly as in the source); the wandb sink is abstracted to the
emitted record. -/

/-- The step-tracking state of `EvalLogger`: `total_steps`,
`steps_since_last_log`, `time_elapsed` (minutes) and the optional
`last_log_time`. -/
structure ReporterState where
  totalSteps : ℕ
  stepsSinceLastLog : ℕ
  timeElapsed : ℚ
  lastLogTime : Option ℚ
  deriving Repr, DecidableEq

/-- The record one periodic emission pushes to the sink:
`step_stats/total_eval_steps`, `step_stats/eval_steps_per_minute` and
`total_time_elapsed`. -/
structure TimeStatsEmission where
  totalEvalSteps : ℕ
  evalStepsPerMinute : ℚ
  totalTimeElapsed : ℚ
  deriving Repr, DecidableEq

/-- Embedding of `EvalLogger.log_time_related_stats` at wall-clock time
`now` (seconds): on the first wake only the baseline is recorded and nothing
is emitted; otherwise the elapsed minutes, the steps-per-minute rate (0 when
the elapsed time is not positive) and the cumulative elapsed time are
emitted, `steps_since_last_log` is reset and `last_log_time` advanced. -/
def logTimeRelatedStats (st : ReporterState) (now : ℚ) :
    ReporterState × Option TimeStatsEmission :=
  match st.lastLogTime with
  | none => ({ st with lastLogTime := some now }, none)
  | some lastTime =>
      let minutesElapsed := (now - lastTime) / 60
      let newElapsed := st.timeElapsed + minutesElapsed
      let stepsPerMinute : ℚ :=
        if minutesElapsed > 0 then (st.stepsSinceLastLog : ℚ) / minutesElapsed else 0
      ({ totalSteps := st.totalSteps
         stepsSinceLastLog := 0
         timeElapsed := newElapsed
         lastLogTime := some now },
       some { totalEvalSteps := st.totalSteps
              evalStepsPerMinute := stepsPerMinute
              totalTimeElapsed := newElapsed })

/-- Embedding of `EvalLogger.log_step`: increment both step counters. -/
def logStep (st : ReporterState) : ReporterState :=
  { st with totalSteps := st.totalSteps + 1,
            stepsSinceLastLog := st.stepsSinceLastLog + 1 }

/-- C5: a wake with no recorded baseline records `now` and emits nothing,
leaving the counters untouched; any later wake emits the total steps, the
rate `steps_since_last_flush / elapsed` (0 when the elapsed time is ≤ 0) and
the cumulative elapsed time, then resets `steps_since_last_flush` to 0 and
advances the baseline to `now`. -/
theorem log_time_related_stats_spec (st : ReporterState) (now : ℚ) :
    (st.lastLogTime = none →
      (logTimeRelatedStats st now).2 = none ∧
      (logTimeRelatedStats st now).1.lastLogTime = some now ∧
      (logTimeRelatedStats st now).1.totalSteps = st.totalSteps ∧
      (logTimeRelatedStats st now).1.stepsSinceLastLog = st.stepsSinceLastLog ∧
      (logTimeRelatedStats st now).1.timeElapsed = st.timeElapsed) ∧
    (∀ lastTime, st.lastLogTime = some lastTime →
      (logTimeRelatedStats st now).2
        = some { totalEvalSteps := st.totalSteps
                 evalStepsPerMinute :=
                   if (now - lastTime) / 60 > 0 then
                     (st.stepsSinceLastLog : ℚ) / ((now - lastTime) / 60)
                   else 0
                 totalTimeElapsed := st.timeElapsed + (now - lastTime) / 60 } ∧
      (logTimeRelatedStats st now).1.stepsSinceLastLog = 0 ∧
      (logTimeRelatedStats st now).1.lastLogTime = some now ∧
      (logTimeRelatedStats st now).1.totalSteps = st.totalSteps ∧
      (logTimeRelatedStats st now).1.timeElapsed
        = st.timeElapsed + (now - lastTime) / 60) := by
  constructor
  · intro h
    simp [logTimeRelatedStats, h]
  · intro lastTime h
    simp [logTimeRelatedStats, h]

/-- Witness for C5: with a baseline at 0 seconds, 10 steps pending and a
wake at 120 seconds, the reporter emits a rate of 5 steps per minute and
resets the pending-step counter. -/
theorem log_time_related_stats_spec_witness :
    (let st : ReporterState := ⟨25, 10, 1, some 0⟩
     st.lastLogTime = some 0 ∧
     ((logTimeRelatedStats st 120).2
        = some { totalEvalSteps := 25, evalStepsPerMinute := 5, totalTimeElapsed := 3 } ∧
      (logTimeRelatedStats st 120).1.stepsSinceLastLog = 0 ∧
      (logTimeRelatedStats st 120).1.lastLogTime = some 120 ∧
      (logTimeRelatedStats st 120).1.totalSteps = 25 ∧
      (logTimeRelatedStats st 120).1.timeElapsed = 1 + (120 - 0) / 60)) := by
  refine ⟨rfl, ?_⟩
  have h := (log_time_related_stats_spec ⟨25, 10, 1, some 0⟩ 120).2 0 rfl
  refine ⟨?_, h.2.1, h.2.2.1, h.2.2.2.1, h.2.2.2.2⟩
  rw [h.1]
  norm_num

/-! ## Durable store: `LocalStorage.save_metadata` (storage/local.py)

The filesystem becomes an association list from paths to metadata records;
`datetime.now()` becomes an explicit timestamp string; Python's opaque
`hash` in `EvalID.create` becomes an abstract function parameter. -/

/-- The fields `MetaData.save` serializes to `metadata.json`. -/
structure MetaData where
  evalId : ℕ
  location : String
  robotName : String
  robotType : String
  time : String
  evaluatorName : String
  deriving Repr, DecidableEq

/-- Embedding of `EvalID.create`: the id is the (abstract) hash of the
concatenated timestamp, robot type and optional custom name. -/
def evalIdCreate (hash : String → ℕ) (time : String) (robotType : String)
    (customName : Option String) : ℕ :=
  hash (time ++ robotType ++ customName.getD "")

/-- The run directory `storage_dir/<eval_id>`. -/
def runDirOf (storageDir : String) (evalId : ℕ) : String :=
  storageDir ++ "/" ++ toString evalId

/-- The metadata path `storage_dir/<eval_id>/metadata.json`. -/
def metadataPathOf (storageDir : String) (evalId : ℕ) : String :=
  runDirOf storageDir evalId ++ "/metadata.json"

/-- Embedding of `LocalStorage.save_metadata`: regenerate the eval id from
the current timestamp, then raise `ValueError` if a metadata file already
exists at the run's metadata path, else write it and return the path. -/
def saveMetadataLocal (hash : String → ℕ) (fs : List (String × MetaData))
    (storageDir : String) (now : String) (location robotName robotType
    evaluatorName : String) (evalName : Option String) :
    Except String (List (String × MetaData) × String) :=
  let evalId := evalIdCreate hash now robotType evalName
  let metadataPath := metadataPathOf storageDir evalId
  match alistGet fs metadataPath with
  | some _ => Except.error ("metadata already exists at " ++ metadataPath)
  | none =>
      Except.ok
        (alistSet fs metadataPath
          { evalId := evalId, location := location, robotName := robotName,
            robotType := robotType, time := now, evaluatorName := evaluatorName },
         metadataPath)

/-- C4: starting from a filesystem with no metadata at the run's target
path, the first `save_metadata` call succeeds and writes the metadata; a
second call whose regenerated eval id equals the first (the same run)
fails with the already-exists error and leaves the first write intact. -/
theorem save_metadata_write_once (hash : String → ℕ)
    (fs : List (String × MetaData)) (storageDir now1 now2 loc1 rn1 rt1 ev1
    loc2 rn2 rt2 ev2 : String) (en1 en2 : Option String)
    (hfresh : alistGet fs (metadataPathOf storageDir
        (evalIdCreate hash now1 rt1 en1)) = none)
    (hsame : evalIdCreate hash now2 rt2 en2 = evalIdCreate hash now1 rt1 en1) :
    (let path := metadataPathOf storageDir (evalIdCreate hash now1 rt1 en1)
     let md : MetaData := ⟨evalIdCreate hash now1 rt1 en1, loc1, rn1, rt1, now1, ev1⟩
     saveMetadataLocal hash fs storageDir now1 loc1 rn1 rt1 ev1 en1
        = Except.ok (alistSet fs path md, path) ∧
     saveMetadataLocal hash (alistSet fs path md) storageDir now2 loc2 rn2 rt2 ev2 en2
        = Except.error ("metadata already exists at " ++ path) ∧
     alistGet (alistSet fs path md) path = some md) := by
  intro path md
  have h1 : saveMetadataLocal hash fs storageDir now1 loc1 rn1 rt1 ev1 en1
      = Except.ok (alistSet fs path md, path) := by
    simp only [saveMetadataLocal, hfresh]
  have hkeep : alistGet (alistSet fs path md) path = some md :=
    alistGet_set_self fs path md
  refine ⟨h1, ?_, hkeep⟩
  simp only [saveMetadataLocal, hsame]
  rw [show metadataPathOf storageDir (evalIdCreate hash now1 rt1 en1) = path from rfl]
  rw [hkeep]

/-- Witness for C4: a concrete double write with equal timestamps fails on
the second call and keeps the first metadata. -/
theorem save_metadata_write_once_witness :
    (let hash : String → ℕ := String.length
     let path := metadataPathOf "root" (evalIdCreate hash "t1" "franka" none)
     let md : MetaData := ⟨evalIdCreate hash "t1" "franka" none, "lab", "r2",
        "franka", "t1", "zoe"⟩
     alistGet [] path = (none : Option MetaData) ∧
     evalIdCreate hash "t1" "franka" none = evalIdCreate hash "t1" "franka" none ∧
     (saveMetadataLocal hash [] "root" "t1" "lab" "r2" "franka" "zoe" none
        = Except.ok (alistSet [] path md, path) ∧
      saveMetadataLocal hash (alistSet [] path md) "root" "t1" "lab2" "r3" "franka"
          "ann" none
        = Except.error ("metadata already exists at " ++ path) ∧
      alistGet (alistSet [] path md) path = some md)) :=
  ⟨rfl, rfl,
   save_metadata_write_once String.length [] "root" "t1" "t1" "lab" "r2" "franka"
     "zoe" "lab2" "r3" "franka" "ann" none none rfl rfl⟩

/-! ## Remote mirror: `HuggingFaceStorage` (storage/hugging_face.py)

The outcome of each attempted `api.upload_file` call is a parameter: it
succeeds, raises one of the transient-classified exceptions
(`HfHubHTTPError`, `RepositoryNotFoundError`, `ConnectionError`,
`TimeoutError`), or raises any other exception. The embedding records an
event trace: local writes, upload attempts, backoff sleeps (seconds) and
logged warnings. -/

/-- What one `api.upload_file` call does. -/
inductive UploadOutcome : Type where
  | success
  | transient
  | fatal
  deriving Repr, DecidableEq

/-- Events of a `save_episode` / `_upload_to_hf` run. -/
inductive SaveEvent : Type where
  | localWrite (path : String)
  | uploadAttempt (k : ℕ)
  | sleep (seconds : ℕ)
  | warn
  deriving Repr, DecidableEq

/-- The retry loop of `_upload_to_hf`, with `fuel = max_retries - retry_count`:
attempt the upload; on success return `true`; on a transient-classified
exception increment the retry count, sleep `2 ** retry_count` seconds and
loop; on any other exception return `false` immediately; when the retries
are exhausted return `false`. -/
def uploadLoop (outcomes : ℕ → UploadOutcome) (retryCount : ℕ) :
    ℕ → Bool × List SaveEvent
  | 0 => (false, [])
  | fuel + 1 =>
      match outcomes retryCount with
      | UploadOutcome.success => (true, [SaveEvent.uploadAttempt retryCount])
      | UploadOutcome.fatal => (false, [SaveEvent.uploadAttempt retryCount])
      | UploadOutcome.transient =>
          let rest := uploadLoop outcomes (retryCount + 1) fuel
          (rest.1, SaveEvent.uploadAttempt retryCount
            :: SaveEvent.sleep (2 ^ (retryCount + 1)) :: rest.2)

/-- Embedding of `HuggingFaceStorage._upload_to_hf` (default
`max_retries = 3` is passed by its callers). -/
def uploadToHf (outcomes : ℕ → UploadOutcome) (maxRetries : ℕ) :
    Bool × List SaveEvent :=
  uploadLoop outcomes 0 maxRetries

/-- A serialized episode record (`TrajData`); its payload is abstract. -/
structure EpisodeData where
  iEpisode : ℕ
  languageCommand : String
  success : Bool
  deriving Repr, DecidableEq

/-- The episode path `run_dir/traj_<i>.pkl`. -/
def trajPathOf (runDir : String) (i : ℕ) : String :=
  runDir ++ "/traj_" ++ toString i ++ ".pkl"

/-- Embedding of `LocalStorage.save_episode`: write (or overwrite) the
episode under its index-keyed path and return the path. -/
def saveEpisodeLocal (fs : List (String × EpisodeData)) (runDir : String)
    (d : EpisodeData) : List (String × EpisodeData) × String :=
  (alistSet fs (trajPathOf runDir d.iEpisode) d, trajPathOf runDir d.iEpisode)

/-- Embedding of `HuggingFaceStorage.save_episode`: first the local write
(via `super().save_episode`), then the retried upload; a failed upload only
logs a warning. The function is total — no branch raises — and returns the
new local filesystem, the local path it returns to the caller, and the event
trace. -/
def saveEpisodeHf (fs : List (String × EpisodeData)) (runDir : String)
    (d : EpisodeData) (outcomes : ℕ → UploadOutcome) :
    List (String × EpisodeData) × String × List SaveEvent :=
  let local0 := saveEpisodeLocal fs runDir d
  let upload := uploadToHf outcomes 3
  (local0.1, local0.2,
    SaveEvent.localWrite local0.2 :: upload.2
      ++ (if upload.1 then [] else [SaveEvent.warn]))

/-- C6: for every episode save through the mirroring store and every
behavior of the remote upload, the call returns the local path, the local
write is present afterwards (never rolled back), the local write strictly
precedes every upload attempt in the event trace, and when the upload fails
the failure is degraded to a warning while the local result is unchanged —
no outcome makes the call raise. -/
theorem save_episode_local_first (fs : List (String × EpisodeData))
    (runDir : String) (d : EpisodeData) (outcomes : ℕ → UploadOutcome) :
    (let r := saveEpisodeHf fs runDir d outcomes
     r.2.1 = trajPathOf runDir d.iEpisode ∧
     alistGet r.1 (trajPathOf runDir d.iEpisode) = some d ∧
     r.2.2.head? = some (SaveEvent.localWrite (trajPathOf runDir d.iEpisode)) ∧
     (∀ i k, r.2.2.get? i = some (SaveEvent.uploadAttempt k) →
       0 < i ∧ r.2.2.get? 0
         = some (SaveEvent.localWrite (trajPathOf runDir d.iEpisode))) ∧
     ((uploadToHf outcomes 3).1 = false → SaveEvent.warn ∈ r.2.2)) := by
  intro r
  have hr2 : r.2.2 = SaveEvent.localWrite (trajPathOf runDir d.iEpisode)
      :: ((uploadToHf outcomes 3).2
        ++ (if (uploadToHf outcomes 3).1 then [] else [SaveEvent.warn])) := rfl
  refine ⟨rfl, ?_, ?_, ?_, ?_⟩
  · exact alistGet_set_self fs (trajPathOf runDir d.iEpisode) d
  · rw [hr2]; rfl
  · intro i k hik
    rcases i with _ | i
    · rw [hr2] at hik
      simp at hik
    · exact ⟨Nat.succ_pos i, by rw [hr2]; rfl⟩
  · intro hfail
    rw [hr2, hfail]
    simp

/-- Witness for C6: with every upload attempt failing fatally, the upload
flag is false and the saved episode is still present with a warning logged. -/
theorem save_episode_local_first_witness :
    ((uploadToHf (fun _ => UploadOutcome.fatal) 3).1 = false ∧
     SaveEvent.warn
       ∈ (saveEpisodeHf [] "root/7" ⟨0, "pick", true⟩ (fun _ => UploadOutcome.fatal)).2.2 ∧
     (saveEpisodeHf [] "root/7" ⟨0, "pick", true⟩ (fun _ => UploadOutcome.fatal)).2.1
       = trajPathOf "root/7" 0 ∧
     (0 : ℕ) < 1 ∧
     (saveEpisodeHf [] "root/7" ⟨0, "pick", true⟩ (fun _ => UploadOutcome.fatal)).2.2.get? 0
       = some (SaveEvent.localWrite (trajPathOf "root/7" 0))) :=
  ⟨rfl,
   (save_episode_local_first [] "root/7" ⟨0, "pick", true⟩
      (fun _ => UploadOutcome.fatal)).2.2.2.2 rfl,
   (save_episode_local_first [] "root/7" ⟨0, "pick", true⟩
      (fun _ => UploadOutcome.fatal)).1,
   ((save_episode_local_first [] "root/7" ⟨0, "pick", true⟩
      (fun _ => UploadOutcome.fatal)).2.2.2.1 1 0 (by decide)).1,
   ((save_episode_local_first [] "root/7" ⟨0, "pick", true⟩
      (fun _ => UploadOutcome.fatal)).2.2.2.1 1 0 (by decide)).2⟩

/-- The upload attempts recorded in a trace. -/
def attemptsOf (evs : List SaveEvent) : List ℕ :=
  evs.filterMap (fun e => match e with
    | SaveEvent.uploadAttempt k => some k
    | _ => none)

/-- The backoff sleeps recorded in a trace. -/
def sleepsOf (evs : List SaveEvent) : List ℕ :=
  evs.filterMap (fun e => match e with
    | SaveEvent.sleep s => some s
    | _ => none)

/-- C7: with the default of 3 retries, the mirror makes at most 3 attempts
(numbered consecutively from 0); the backoff sleeps form an initial segment
of 2, 4, 8 seconds (exponential, starting at 2); a retry (attempt k+1) only
happens when attempt k hit a transient-classified failure; and a
non-transient failure at attempt k aborts immediately with the failure flag:
attempt k is the last, with no backoff sleep after it. -/
theorem uploadLoop_attempts (o : ℕ → UploadOutcome) (fuel : ℕ) :
    ∀ c, attemptsOf (uploadLoop o c fuel).2
      = List.range' c (attemptsOf (uploadLoop o c fuel).2).length ∧
    (attemptsOf (uploadLoop o c fuel).2).length ≤ fuel := by
  induction fuel with
  | zero => intro c; simp [uploadLoop, attemptsOf]
  | succ f ih =>
      intro c
      rcases ho : o c with _ | _ | _
      · simp [uploadLoop, ho, attemptsOf, List.range'_succ]
      · have h := ih (c + 1)
        simp only [uploadLoop, ho, attemptsOf, List.filterMap_cons] at *
        constructor
        · conv_lhs => rw [h.1]
          simp [List.range'_succ]
        · simpa using h.2
      · simp [uploadLoop, ho, attemptsOf, List.range'_succ]

theorem uploadLoop_sleeps (o : ℕ → UploadOutcome) (fuel : ℕ) :
    ∀ c, sleepsOf (uploadLoop o c fuel).2
      = (List.range' c (sleepsOf (uploadLoop o c fuel).2).length).map
          (fun i => 2 ^ (i + 1)) := by
  induction fuel with
  | zero => intro c; simp [uploadLoop, sleepsOf]
  | succ f ih =>
      intro c
      rcases ho : o c with _ | _ | _
      · simp [uploadLoop, ho, sleepsOf]
      · have h := ih (c + 1)
        simp only [uploadLoop, ho, sleepsOf, List.filterMap_cons] at *
        conv_lhs => rw [h]
        simp [List.range'_succ]
      · simp [uploadLoop, ho, sleepsOf]

theorem uploadLoop_retry_transient (o : ℕ → UploadOutcome) (fuel : ℕ) :
    ∀ c, (∀ i, i < c → o i = UploadOutcome.transient) →
    ∀ k, (k + 1) ∈ attemptsOf (uploadLoop o c fuel).2 →
      o k = UploadOutcome.transient := by
  induction fuel with
  | zero => intro c _ k hk; simp [uploadLoop, attemptsOf] at hk
  | succ f ih =>
      intro c hc k hk
      rcases ho : o c with _ | _ | _
      · simp [uploadLoop, ho, attemptsOf] at hk
        exact hc k (by omega)
      · simp only [uploadLoop, ho, attemptsOf, List.filterMap_cons,
          List.mem_cons] at hk
        rcases hk with hk | hk
        · have : k + 1 = c := by simpa using hk
          exact hc k (by omega)
        · refine ih (c + 1) ?_ k hk
          intro i hi
          by_cases hic : i = c
          · rw [hic]; exact ho
          · exact hc i (by omega)
      · simp [uploadLoop, ho, attemptsOf] at hk
        exact hc k (by omega)

theorem uploadLoop_fatal (o : ℕ → UploadOutcome) (fuel : ℕ) :
    ∀ c k, k ∈ attemptsOf (uploadLoop o c fuel).2 →
      o k = UploadOutcome.fatal →
      (uploadLoop o c fuel).1 = false ∧
      (attemptsOf (uploadLoop o c fuel).2).length = k + 1 - c ∧
      (sleepsOf (uploadLoop o c fuel).2).length = k - c := by
  induction fuel with
  | zero => intro c k hk; simp [uploadLoop, attemptsOf] at hk
  | succ f ih =>
      intro c k hk hf
      rcases ho : o c with _ | _ | _
      · simp [uploadLoop, ho, attemptsOf] at hk
        rw [hk] at hf
        exact UploadOutcome.noConfusion (ho.symm.trans hf)
      · have hun : attemptsOf (uploadLoop o c (f + 1)).2
            = c :: attemptsOf (uploadLoop o (c + 1) f).2 := by
          simp [uploadLoop, ho, attemptsOf]
        have hsl : sleepsOf (uploadLoop o c (f + 1)).2
            = 2 ^ (c + 1) :: sleepsOf (uploadLoop o (c + 1) f).2 := by
          simp [uploadLoop, ho, sleepsOf]
        have hfl : (uploadLoop o c (f + 1)).1 = (uploadLoop o (c + 1) f).1 := by
          simp [uploadLoop, ho]
        rw [hun, List.mem_cons] at hk
        rcases hk with hkc | hk2
        · rw [hkc] at hf
          exact UploadOutcome.noConfusion (ho.symm.trans hf)
        · have hge : c + 1 ≤ k := by
            have hr := (uploadLoop_attempts o f (c + 1)).1
            have hk3 := hk2
            rw [hr] at hk3
            exact (List.mem_range'_1.mp hk3).1
          have h := ih (c + 1) k hk2 hf
          refine ⟨by rw [hfl]; exact h.1, ?_, ?_⟩
          · rw [hun, List.length_cons, h.2.1]
            omega
          · rw [hsl, List.length_cons, h.2.2]
            omega
      · simp [uploadLoop, ho, attemptsOf] at hk
        subst hk
        refine ⟨?_, ?_, ?_⟩ <;> simp [uploadLoop, ho, attemptsOf, sleepsOf]

/-- C7: with the default of 3 retries, the mirror makes at most 3 attempts
(numbered consecutively from 0); the backoff sleeps form an initial segment
of 2, 4, 8 seconds (exponential, starting at 2); a retry (attempt k+1)
happens only when attempt k hit a transient-classified failure; and a
non-transient failure at attempt k aborts immediately with the failure flag:
attempt k is the last, with no backoff sleep after it. -/
theorem upload_retry_policy (outcomes : ℕ → UploadOutcome) :
    (let r := uploadToHf outcomes 3
     (attemptsOf r.2).length ≤ 3 ∧
     attemptsOf r.2 = List.range (attemptsOf r.2).length ∧
     sleepsOf r.2 = (List.range (sleepsOf r.2).length).map (fun i => 2 ^ (i + 1)) ∧
     (∀ k, (k + 1) ∈ attemptsOf r.2 → outcomes k = UploadOutcome.transient) ∧
     (∀ k, k ∈ attemptsOf r.2 → outcomes k = UploadOutcome.fatal →
       r.1 = false ∧ (attemptsOf r.2).length = k + 1 ∧
       (sleepsOf r.2).length = k)) := by
  intro r
  refine ⟨(uploadLoop_attempts outcomes 3 0).2, ?_, ?_, ?_, ?_⟩
  · rw [List.range_eq_range']
    exact (uploadLoop_attempts outcomes 3 0).1
  · rw [List.range_eq_range']
    exact uploadLoop_sleeps outcomes 3 0
  · exact uploadLoop_retry_transient outcomes 3 0 (fun i hi => absurd hi (Nat.not_lt_zero i))
  · intro k hk hf
    have h := uploadLoop_fatal outcomes 3 0 k hk hf
    simpa using h

/-- Witness for C7: with a transient failure at attempt 0 and a
non-transient failure at attempt 1, the second attempt exists (so attempt 0
was transient-classified), the loop stops after 2 attempts with one backoff
sleep, and the failure flag is returned. -/
theorem upload_retry_policy_witness :
    (let o : ℕ → UploadOutcome := fun k =>
        if k = 0 then UploadOutcome.transient else UploadOutcome.fatal
     let r := uploadToHf o 3
     ((0 + 1) ∈ attemptsOf r.2 ∧ o 0 = UploadOutcome.transient) ∧
     (1 ∈ attemptsOf r.2 ∧ o 1 = UploadOutcome.fatal ∧
       r.1 = false ∧ (attemptsOf r.2).length = 1 + 1 ∧ (sleepsOf r.2).length = 1)) :=
  ⟨⟨by decide,
    (upload_retry_policy (fun k =>
      if k = 0 then UploadOutcome.transient else UploadOutcome.fatal)).2.2.2.1 0
      (by decide)⟩,
   ⟨by decide, by decide,
    (upload_retry_policy (fun k =>
      if k = 0 then UploadOutcome.transient else UploadOutcome.fatal)).2.2.2.2 1
      (by decide) (by decide)⟩⟩

/-! ## Shared step counters: `log_step` racing `log_time_related_stats`

The source guards `total_steps` / `steps_since_last_log` with no lock: the
foreground `log_step` performs two read-modify-write increments and the
background reporter reads `steps_since_last_log` (for the emitted rate) and
later writes 0. Each Python bytecode-level load/store is one atomic
micro-operation; an interleaving is a merge of the two threads' programs. -/

/-- One atomic load/store of the racing threads: the foreground increment's
read/write of each counter, and the background flush's read (which feeds the
emission) and reset of `steps_since_last_log`. -/
inductive MicroOp : Type where
  | fgReadTotal
  | fgWriteTotal
  | fgReadSince
  | fgWriteSince
  | bgReadSince
  | bgWriteZero
  deriving Repr, DecidableEq

/-- Shared counters plus the two threads' private registers and the values
the background flush has emitted. -/
structure ConcState where
  total : ℕ
  since : ℕ
  fgTotalReg : ℕ
  fgSinceReg : ℕ
  emitted : List ℕ
  deriving Repr, DecidableEq

/-- Effect of one micro-operation. -/
def execOp (s : ConcState) : MicroOp → ConcState
  | MicroOp.fgReadTotal => { s with fgTotalReg := s.total }
  | MicroOp.fgWriteTotal => { s with total := s.fgTotalReg + 1 }
  | MicroOp.fgReadSince => { s with fgSinceReg := s.since }
  | MicroOp.fgWriteSince => { s with since := s.fgSinceReg + 1 }
  | MicroOp.bgReadSince => { s with emitted := s.emitted ++ [s.since] }
  | MicroOp.bgWriteZero => { s with since := 0 }

/-- Run a sequence of micro-operations. -/
def runOps (s : ConcState) (ops : List MicroOp) : ConcState :=
  ops.foldl execOp s

/-- `log_step`: `self.total_steps += 1; self.steps_since_last_log += 1`. -/
def logStepProg : List MicroOp :=
  [MicroOp.fgReadTotal, MicroOp.fgWriteTotal, MicroOp.fgReadSince, MicroOp.fgWriteSince]

/-- The reporter's read-and-reset of `steps_since_last_log`: the read at the
rate computation and the later `self.steps_since_last_log = 0`. -/
def flushSinceProg : List MicroOp :=
  [MicroOp.bgReadSince, MicroOp.bgWriteZero]

/-- Merge two programs under a schedule: `true` picks the next foreground
operation, `false` the next background one; an exhausted side yields to the
other. -/
def interleaveOps : List Bool → List MicroOp → List MicroOp → List MicroOp
  | [], fg, bg => fg ++ bg
  | true :: s, fg, bg =>
      match fg with
      | [] => bg
      | f :: fg2 => f :: interleaveOps s fg2 bg
  | false :: s, fg, bg =>
      match bg with
      | [] => fg
      | b :: bg2 => b :: interleaveOps s fg bg2

/-- The initial shared state: no steps yet, nothing emitted. -/
def concInit : ConcState := ⟨0, 0, 0, 0, []⟩

/-- No-increment-lost accounting: everything the flush has emitted plus the
pending counter must equal the number of completed increments. -/
def accountedSteps (s : ConcState) : ℕ := s.emitted.sum + s.since

/-- C9 (the code violates the claim): the unsynchronized counters admit an
interleaving of one `log_step` with the reporter's read-and-reset — the
reporter reads `steps_since_last_log`, the whole increment runs, then the
reset overwrites it with 0 — in which the increment is lost: one step was
taken (`total = 1`) yet the emitted values and the remaining counter sum to
0. Both serializations of the same two operations account for the step
correctly, so the loss is caused by the interleaving the source permits. -/
theorem log_step_lost_update :
    (let racy := runOps concInit
        (interleaveOps [false, true, true, true, true, false] logStepProg flushSinceProg)
     racy.total = 1 ∧ accountedSteps racy = 0) ∧
    (let serial1 := runOps concInit (logStepProg ++ flushSinceProg)
     serial1.total = 1 ∧ accountedSteps serial1 = 1) ∧
    (let serial2 := runOps concInit (flushSinceProg ++ logStepProg)
     serial2.total = 1 ∧ accountedSteps serial2 = 1) := by
  refine ⟨⟨rfl, rfl⟩, ⟨rfl, rfl⟩, ⟨rfl, rfl⟩⟩

end RobotEvalLogger
